import Mathlib

/-!
Verification development for the `popgen` WCNF encoder
(`src/popgen/encoder.py`, function `encode_POP`).

The Python function is shallowly embedded below.  The lifted POP's facts,
actions and links are represented by lists in their (deterministic, for the
purpose of this model) iteration order; Python object identity (`is`) on the
lifter's distinct action objects is represented by structural inequality of
`Act` values, whose names are assumed distinct.  Fallible steps of the Python
code (dictionary `KeyError` lookups) are represented with `Except`.  The
external boolean-formula engine (`bauhaus`/`nnf`: `And(...).compile()
.simplify().to_CNF()` plus `dimacs.dumps`) is an external collaborator of the
spec; it is represented by an abstract function argument producing a
`CNFResult` (the set of variables of the compiled CNF, in `cnf.vars()`
iteration order, and the compiled clause lines of the DIMACS dump, whose
header is `p cnf <number of vars> <number of clauses>`).
-/

namespace Popgen

/-- An operator instance of the lifted POP: a name, precondition facts,
add-effect facts and delete-effect facts (`a.pres`, `a.adds`, `a.dels`). -/
structure Act where
  name : String
  pres : List String
  adds : List String
  dels : List String
deriving DecidableEq, Repr

/-- The lifted partial-order plan handed to `encode_POP`: facts `F`,
actions `A`, the distinguished `init`/`goal` actions, and the ordering /
causal links returned by `get_links()`. -/
structure POP where
  F : List String
  A : List Act
  init : Act
  goal : Act
  links : List (Act × Act)
deriving DecidableEq, Repr

/-- The command-line options of `encode_POP` that affect the encoding. -/
structure Args where
  allact : Bool
  serial : Bool
  deorder : Bool
deriving DecidableEq, Repr

/-- The three proposition families of `encoder.py` (classes `Action`,
`Order`, `Support`). -/
inductive Prp where
  | action (a : Act)
  | order (a1 a2 : Act)
  | support (a1 : Act) (p : String) (a2 : Act)
deriving DecidableEq, Repr

/-- A variable name of the compiled CNF: either one of the original
propositions, or an auxiliary variable introduced by the external Tseitin
transformation (carrying its display string). -/
inductive VName where
  | prp (p : Prp)
  | aux (s : String)
deriving DecidableEq, Repr

/-- Formulas built by `encode_POP` over the propositions, with the
connectives it uses: `~`, `&`, `|`, `>>` and `Or([...])` (an empty `Or`
is the false formula). -/
inductive Form where
  | var (p : Prp)
  | fls
  | neg (f : Form)
  | conj (f g : Form)
  | disj (f g : Form)
  | imp (f g : Form)
deriving DecidableEq, Repr

/-- Truth value of a formula under an assignment to the propositions. -/
def Form.eval (v : Prp → Bool) : Form → Bool
  | .var p => v p
  | .fls => false
  | .neg f => !(f.eval v)
  | .conj f g => f.eval v && g.eval v
  | .disj f g => f.eval v || g.eval v
  | .imp f g => !(f.eval v) || g.eval v

/-- An assignment satisfies every clause of a clause list. -/
def satisfiesAll (v : Prp → Bool) (cs : List Form) : Prop :=
  ∀ c ∈ cs, c.eval v = true

/-- The `Or([...])` constructor of the nnf library: the empty disjunction is false, a
non-empty one is the (left-associated) disjunction of its members. -/
def orList : List Form → Form
  | [] => .fls
  | f :: fs => fs.foldl Form.disj f

/-- The dictionary `adders[f]` as built by lines 31-40 of `encoder.py`: the actions of `A`
whose add effects contain `f` (in `A` iteration order). -/
def addersOf (pop : POP) (f : String) : List Act :=
  pop.A.filter (fun a => decide (f ∈ a.adds))

/-- The dictionary `deleters[f]` as built by lines 31-42 of `encoder.py`. -/
def deletersOf (pop : POP) (f : String) : List Act :=
  pop.A.filter (fun a => decide (f ∈ a.dels))

/-- The index-construction loop of lines 38-42 succeeds exactly when every
add/delete effect of every action is a key of the dictionaries, i.e. a
member of `F`; otherwise `adders[f].add(a)` (or `deleters[f].add(a)`)
raises `KeyError`. -/
def indexCheck (pop : POP) : Bool :=
  pop.A.all (fun a =>
    a.adds.all (fun f => decide (f ∈ pop.F)) &&
    a.dels.all (fun f => decide (f ∈ pop.F)))

/-- Line 94 (`supports = [... for a1 in adders[p] ...]`) succeeds exactly
when every precondition of every action is a key of `adders`, i.e. a member
of `F`. -/
def presCheck (pop : POP) : Bool :=
  pop.A.all (fun a => a.pres.all (fun p => decide (p ∈ pop.F)))

/-- Line 107: `~Order(a, a)` for every `a ∈ A`. -/
def irreflexClauses (A : List Act) : List Form :=
  A.map (fun a => Form.neg (.var (.order a a)))

/-- Lines 110-113: `(Order(a1,a2) & Order(a2,a3)) >> Order(a1,a3)`. -/
def transClauses (A : List Act) : List Form :=
  A.flatMap (fun a1 => A.flatMap (fun a2 => A.map (fun a3 =>
    Form.imp (.conj (.var (.order a1 a2)) (.var (.order a2 a3)))
      (.var (.order a1 a3)))))

/-- Lines 115-118: `Order(a1,a2) >> (Action(a1) & Action(a2))`. -/
def orderActionClauses (A : List Act) : List Form :=
  A.flatMap (fun a1 => A.map (fun a2 =>
    Form.imp (.var (.order a1 a2)) (.conj (.var (.action a1)) (.var (.action a2)))))

/-- Lines 121-125: `Action(a) >> Order(init, a)` for `a` not `init` and
`Action(a) >> Order(a, goal)` for `a` not `goal`. -/
def bracketClauses (A : List Act) (ini gl : Act) : List Form :=
  A.flatMap (fun a =>
    (if a = ini then [] else [Form.imp (.var (.action a)) (.var (.order ini a))]) ++
    (if a = gl then [] else [Form.imp (.var (.action a)) (.var (.order a gl))]))

/-- Lines 128-129: `Action(init)` and `Action(goal)`. -/
def initGoalClauses (ini gl : Act) : List Form :=
  [Form.var (.action ini), Form.var (.action gl)]

/-- The list `[x for x in adders[p] if x is not a2]` of lines 134 and 139. -/
def extAdders (ad : String → List Act) (p : String) (a2 : Act) : List Act :=
  (ad p).filter (fun x => decide (x ≠ a2))

/-- Line 134: `Action(a2) >> Or([Support(a1, p, a2) for a1 in adders[p]
if a1 is not a2])`. -/
def precClause (ad : String → List Act) (a2 : Act) (p : String) : Form :=
  Form.imp (.var (.action a2))
    (orList ((extAdders ad p a2).map (fun a1 => Form.var (.support a1 p a2))))

/-- Lines 132-134: the precondition-satisfaction family, one clause per
`a2 ∈ A` and `p ∈ a2.pres`, in iteration order. -/
def precClauses (ad : String → List Act) (A : List Act) : List Form :=
  A.flatMap (fun a2 => a2.pres.map (fun p => precClause ad a2 p))

/-- Line 142: `Support(a1,p,a2) >> Order(a1,a2)`. -/
def supOrdClause (a1 : Act) (p : String) (a2 : Act) : Form :=
  Form.imp (.var (.support a1 p a2)) (.var (.order a1 a2))

/-- Line 147: `Support(a1,p,a2) >> (~Action(ad) | Order(ad,a1) | Order(a2,ad))`
(Python `|` associates to the left). -/
def threatClause (a1 : Act) (p : String) (a2 : Act) (d : Act) : Form :=
  Form.imp (.var (.support a1 p a2))
    (.disj (.disj (.neg (.var (.action d))) (.var (.order d a1))) (.var (.order a2 d)))

/-- Lines 139-147, inner loops: for one `(a2, p)` pair, per external adder
`a1` the support-implies-ordering clause followed by one threat clause per
deleter `ad` of `p` with `ad not in [a1, a2]`. -/
def threatGroup (ad dl : String → List Act) (a2 : Act) (p : String) : List Form :=
  (extAdders ad p a2).flatMap (fun a1 =>
    supOrdClause a1 p a2 ::
    ((dl p).filter (fun d => decide (d ≠ a1) && decide (d ≠ a2))).map
      (fun d => threatClause a1 p a2 d))

/-- Lines 137-147: the support/threat family over all `a2 ∈ A`, `p ∈ a2.pres`. -/
def supportClauses (ad dl : String → List Act) (A : List Act) : List Form :=
  A.flatMap (fun a2 => a2.pres.flatMap (fun p => threatGroup ad dl a2 p))

/-- Line 154: `(Action(a1) & Action(a2)) >> (Order(a1,a2) | Order(a2,a1))`. -/
def serialClause (a1 a2 : Act) : Form :=
  Form.imp (.conj (.var (.action a1)) (.var (.action a2)))
    (.disj (.var (.order a1 a2)) (.var (.order a2 a1)))

/-- Lines 150-154: the `--serial` family over ordered pairs of distinct
actions, in iteration order. -/
def serialClauses (A : List Act) : List Form :=
  A.flatMap (fun a1 => (A.filter (fun a2 => decide (a2 ≠ a1))).map (fun a2 => serialClause a1 a2))

/-- Lines 156-158: the `--allact` family, `Action(a)` per `a ∈ A`. -/
def allactClauses (A : List Act) : List Form :=
  A.map (fun a => Form.var (.action a))

/-- Lines 160-162: the `--deorder` family, `~Order(aj, ai)` per link
`(ai, aj)` of `pop.get_links()`. -/
def deorderClauses (links : List (Act × Act)) : List Form :=
  links.map (fun q => Form.neg (.var (.order q.2 q.1)))

/-- Lines 104-162: the full hard-clause list of `encode_POP`, in emission
order, with the three optional families appended in source order
(`--serial`, then `--allact`, then `--deorder`). -/
def hardClauses (pop : POP) (ad dl : String → List Act) (args : Args) : List Form :=
  irreflexClauses pop.A ++ transClauses pop.A ++ orderActionClauses pop.A ++
  bracketClauses pop.A pop.init pop.goal ++ initGoalClauses pop.init pop.goal ++
  precClauses ad pop.A ++ supportClauses ad dl pop.A ++
  (if args.serial then serialClauses pop.A else []) ++
  (if args.allact then allactClauses pop.A else []) ++
  (if args.deorder then deorderClauses pop.links else [])

/-- Line 92: `actions = [Action(a) for a in A]`. -/
def actionsProps (pop : POP) : List Prp :=
  pop.A.map (fun a => Prp.action a)

/-- Line 93: `orders = [Order(a1, a2) for a1 in A for a2 in A]`. -/
def ordersProps (pop : POP) : List Prp :=
  pop.A.flatMap (fun a1 => pop.A.map (fun a2 => Prp.order a1 a2))

/-- Line 170: `order_cost = 1`. -/
def orderCost : Nat := 1

/-- Line 171: `action_cost = len(orders) + 1`. -/
def actionCost (pop : POP) : Nat :=
  (ordersProps pop).length + 1

/-- Line 172: `top_cost = (len(orders) * order_cost) + (len(actions) *
action_cost) + 1`. -/
def topCost (pop : POP) : Nat :=
  (ordersProps pop).length * orderCost + (actionsProps pop).length * actionCost pop + 1

/-- Total cost of all soft clauses: one `action_cost` per Action soft
clause and one `order_cost` per Order soft clause. -/
def softCostSum (pop : POP) : Nat :=
  ((actionsProps pop).map (fun _ => actionCost pop)).sum +
  ((ordersProps pop).map (fun _ => orderCost)).sum

/-- Failure modes of `encode_POP` represented in this model: the `KeyError`
of the index-construction loop (lines 38-42), the `KeyError` of `adders[p]`
for a precondition outside `F` (line 94), and the `KeyError` of
`var_labels_inverse[...]` (lines 185 and 189). -/
inductive EncErr where
  | indexKeyError
  | presKeyError
  | varKeyError
deriving DecidableEq, Repr

/-- The result of the external engine's `And(clauses).compile().simplify()
.to_CNF()` followed by `dimacs.dumps`: the variables of the compiled CNF in
`cnf.vars()` iteration order, and the compiled clauses (lists of signed
1-based variable indices) in dump order. -/
structure CNFResult where
  vars : List VName
  clauses : List (List Int)
deriving DecidableEq, Repr

/-- Lines 166-167: `var_labels = dict(enumerate(cnf.vars(), start=1))` and
its inverse; the variable index assigned to a name, `none` when the name is
not a variable of the compiled CNF (in which case the Python subscript
raises `KeyError`). -/
def varIdx (r : CNFResult) (v : VName) : Option Nat :=
  (r.vars.findIdx? (fun x => decide (x = v))).map (fun i => i + 1)

/-- One clause line of the DIMACS body: signed literals then `0`,
space-separated. -/
def clauseLine (c : List Int) : String :=
  String.intercalate " " (c.map toString ++ ["0"])

/-- Lines 180-182: a compiled hard clause line prefixed with `top_cost`. -/
def hardLine (top : Nat) (c : List Int) : String :=
  toString top ++ " " ++ clauseLine c

/-- Lines 186 and 190: a soft clause line `{cost} -{var} 0`. -/
def softLine (cost v : Nat) : String :=
  toString cost ++ " -" ++ toString v ++ " 0"

/-- The loops of lines 184-190: one soft clause per proposition, looked up
by exact proposition in `var_labels_inverse`; a missing proposition raises
`KeyError` (modelled as `EncErr.varKeyError`). -/
def softLines (cost : Nat) (look : Prp → Option Nat) : List Prp → Except EncErr (List String)
  | [] => .ok []
  | p :: ps =>
    match look p with
    | none => .error .varKeyError
    | some v =>
      match softLines cost look ps with
      | .ok ls => .ok (softLine cost v :: ls)
      | .error e => .error e

/-- Line 178: the rewritten header `p wcnf {nv} {nc + len(actions) +
len(orders)} {top_cost}`, where `nv`/`nc` come from the `p cnf` header of
the DIMACS dump (number of variables / number of compiled clauses). -/
def wcnfHeader (pop : POP) (r : CNFResult) : String :=
  "p wcnf " ++ toString r.vars.length ++ " " ++
  toString (r.clauses.length + (actionsProps pop).length + (ordersProps pop).length) ++
  " " ++ toString (topCost pop)

/-- Modelled from the spec: the lifter (an external collaborator whose code
is not under `src/`) supplies the `Act` objects interpolated into the
propositions' display strings; following the spec's examples
(`Action(a3)`, `Order(a1,a2)`) an action displays as its name. -/
def actStr (a : Act) : String := a.name

/-- The value `str(v)` of line 196 for a variable label: the `__str__` forms of the
proposition classes (`"{name} in plan"`, `"{a1} -> {a2}"`,
`"{a1} supports {p} for {a2}"`); an auxiliary engine variable displays as
its own string. -/
def vstr : VName → String
  | .prp (.action a) => actStr a ++ " in plan"
  | .prp (.order a1 a2) => actStr a1 ++ " -> " ++ actStr a2
  | .prp (.support a1 p a2) => actStr a1 ++ " supports " ++ p ++ " for " ++ actStr a2
  | .aux s => s

/-- Line 196, the dictionary `{k: str(v) for k, v in var_labels.items()}`:
string keys `"1"`, `"2"`, ... in `cnf.vars()` order paired with the
`str(v)` description of each variable. -/
def mapEntries (r : CNFResult) : List (String × String) :=
  r.vars.enum.map (fun q => (toString (q.1 + 1), vstr q.2))

/-- The output of `json.dumps(d, indent=4)` for a string-keyed, string-valued dictionary
whose strings need no escaping. -/
def jsonIndent4 (l : List (String × String)) : String :=
  match l with
  | [] => "\x7b\x7d"
  | _ =>
    "\x7b\n" ++
    String.intercalate ",\n"
      (l.map (fun kv => "    \"" ++ kv.1 ++ "\": \"" ++ kv.2 ++ "\"")) ++
    "\n\x7d"

/-- The content of the `<output>.map` file (line 196). -/
def mapJson (r : CNFResult) : String :=
  jsonIndent4 (mapEntries r)

/-- Lines 166-196 of `encode_POP`: from the compiled CNF, build the WCNF
file (as its list of lines) and the map file (as its JSON text).  The soft
clause lookups happen before either file is written, so a missing
Action/Order variable yields an error and no output. -/
def writeStage (pop : POP) (r : CNFResult) : Except EncErr (List String × String) :=
  match softLines (actionCost pop) (fun p => varIdx r (.prp p)) (actionsProps pop) with
  | .error e => .error e
  | .ok sa =>
    match softLines orderCost (fun p => varIdx r (.prp p)) (ordersProps pop) with
    | .error e => .error e
    | .ok so =>
      .ok (wcnfHeader pop r :: (r.clauses.map (hardLine (topCost pop)) ++ sa ++ so),
           mapJson r)

/-- Modelled from the spec: one round of `POP.transativly_close`, a method
of the lifter's POP class (code not under `src/`); per the spec the method
closes the ordering relation, here by adding every pair implied by two
chained links and not yet recorded. -/
def closeOnce (l : List (Act × Act)) : List (Act × Act) :=
  l ++ (l.flatMap (fun p => l.filterMap (fun q =>
    if p.2 = q.1 ∧ ¬((p.1, q.2) ∈ l) then some (p.1, q.2) else none))).dedup

/-- Fuelled iteration of `closeOnce` to a fixpoint. -/
def closeFuel : Nat → List (Act × Act) → List (Act × Act)
  | 0, l => l
  | n + 1, l => if closeOnce l = l then l else closeFuel n (closeOnce l)

/-- Modelled from the spec: `pop.transativly_close()` (line 23 of
`encoder.py` calls it; the method body lives in the lifter, not under
`src/`): the transitive closure of the recorded ordering links. -/
def transitivelyClose (l : List (Act × Act)) : List (Act × Act) :=
  closeFuel ((l.length + 1) * (l.length + 1)) l

/-- The state of the input POP object after `encode_POP` ran: line 23
(`pop.transativly_close()`) replaces its recorded links with their
transitive closure; nothing else in `encode_POP` writes to the POP. -/
def popAfterEncode (pop : POP) : POP :=
  ⟨pop.F, pop.A, pop.init, pop.goal, transitivelyClose pop.links⟩

/-- The function `encode_POP(pop, cmdargs)` (lines 20-196): close the POP, build the
adders/deleters indices (KeyError when an effect fact is outside `F`),
enumerate propositions (KeyError when a precondition is outside `F`), emit
the hard clauses, compile them with the external engine, and serialize.
Returns the final state of the POP object together with the two output
artifacts. -/
def encodePOP (compile : List Form → CNFResult) (pop0 : POP) (args : Args) :
    Except EncErr (POP × List String × String) :=
  let pop := popAfterEncode pop0
  if indexCheck pop then
    if presCheck pop then
      match writeStage pop (compile (hardClauses pop (addersOf pop) (deletersOf pop) args)) with
      | .error e => .error e
      | .ok wm => .ok (pop, wm)
    else .error EncErr.presKeyError
  else .error EncErr.indexKeyError

/-- Recognizer for the right-hand side of a precondition-satisfaction
clause: an `Or` (possibly empty) of `Support(_, _, a2)` variables. -/
def isSupportOrFor (a2 : Act) : Form → Bool
  | .fls => true
  | .var (.support _ _ b) => decide (b = a2)
  | .disj f (.var (.support _ _ b)) => isSupportOrFor a2 f && decide (b = a2)
  | _ => false

/-- Recognizer for the shape of a clause of the precondition-satisfaction
family (clause family 7 of the spec). -/
def isPrecClause : Form → Bool
  | .imp (.var (.action a)) r => isSupportOrFor a r
  | _ => false

/-- The init action of the spec's end-to-end scenario: adds `p`. -/
def aI : Act := ⟨"i", [], ["p"], []⟩

/-- The goal action of the spec's end-to-end scenario: requires `p`. -/
def aG : Act := ⟨"g", ["p"], [], []⟩

/-- The spec's end-to-end scenario POP: `F = ["p"]`, `A = [init, goal]`. -/
def popS : POP := ⟨["p"], [aI, aG], aI, aG, []⟩

/-- A goal action with no preconditions or effects. -/
def aG0 : Act := ⟨"g", [], [], []⟩

/-- A middle action whose only precondition `q` has no adder. -/
def aC : Act := ⟨"c", ["q"], [], []⟩

/-- A POP containing an action (`c`) with an externally unsupportable
precondition. -/
def popC1 : POP := ⟨["p", "q"], [aI, aC, aG0], aI, aG0, []⟩

/-- An assignment for `popC1`: `i` and `g` present, `c` absent, `i`
ordered before `g`, no supports. -/
def v0 : Prp → Bool
  | .action a => decide (a.name = "i") || decide (a.name = "g")
  | .order a1 a2 => decide (a1.name = "i") && decide (a2.name = "g")
  | .support _ _ _ => false

/-- A consumer of fact `p`. -/
def aB : Act := ⟨"b", ["p"], [], []⟩

/-- A deleter of fact `p`. -/
def aD : Act := ⟨"d", [], [], ["p"]⟩

/-- A POP with a causal link `i --p--> b` threatened by the deleter `d`. -/
def popT : POP := ⟨["p"], [aI, aB, aD, aG0], aI, aG0, []⟩

/-- An assignment for `popT`: `i`, `b`, `g` present in that order, `d`
absent, `i` supports `p` for `b`. -/
def v1 : Prp → Bool
  | .action a => decide (a.name ≠ "d")
  | .order a1 a2 =>
    (decide (a1.name = "i") && decide (a2.name = "b")) ||
    (decide (a1.name = "i") && decide (a2.name = "g")) ||
    (decide (a1.name = "b") && decide (a2.name = "g"))
  | .support a1 p a2 =>
    decide (a1.name = "i") && decide (p = "p") && decide (a2.name = "b")

/-- Options all off. -/
def args0 : Args := ⟨false, false, false⟩

/-- A compiled CNF for `popS` whose variables are exactly its two Action
propositions followed by its four Order propositions, with a single
compiled clause. -/
def r0 : CNFResult :=
  ⟨[VName.prp (.action aI), VName.prp (.action aG),
    VName.prp (.order aI aI), VName.prp (.order aI aG),
    VName.prp (.order aG aI), VName.prp (.order aG aG)],
   [[1, -2]]⟩

/-- The successful `writeStage` output for `popS` and `r0`. -/
def wm0 : List String × String :=
  match writeStage popS r0 with
  | .ok x => x
  | .error _ => ([], "")

/-- A compiled CNF with no variables at all. -/
def rEmpty : CNFResult := ⟨[], []⟩

/-- An external engine stub returning an empty CNF. -/
def compileNop : List Form → CNFResult := fun _ => rEmpty

/-- A compiled CNF whose single variable is the proposition `Action(i)`. -/
def r8 : CNFResult := ⟨[VName.prp (.action aI)], []⟩

/-- Three chained actions. -/
def aX : Act := ⟨"x", [], [], []⟩

/-- Second action of the chain. -/
def aY : Act := ⟨"y", [], [], []⟩

/-- Third action of the chain. -/
def aZ : Act := ⟨"z", [], [], []⟩

/-- A POP whose recorded links `x -> y -> z` are not transitively closed. -/
def popNC : POP := ⟨[], [aX, aY, aZ], aX, aZ, [(aX, aY), (aY, aZ)]⟩

/-- An action adding a fact `w` that is not a member of `F`. -/
def aBad : Act := ⟨"i", [], ["w"], []⟩

/-- A POP violating the index-construction precondition: `w` is added but
is not in `F`. -/
def popBad : POP := ⟨["p"], [aBad, aG0], aBad, aG0, []⟩

theorem sum_map_const_nat {α : Type} (l : List α) (c : Nat) :
    (l.map (fun _ => c)).sum = l.length * c := by
  induction l with
  | nil => simp
  | cons x xs ih => simp [ih, Nat.succ_mul, Nat.add_comm]

theorem actionsProps_length (pop : POP) : (actionsProps pop).length = pop.A.length := by
  simp [actionsProps]

theorem ordersProps_length (pop : POP) :
    (ordersProps pop).length = pop.A.length * pop.A.length := by
  simp only [ordersProps, List.length_flatMap, Function.comp_def, List.length_map]
  exact sum_map_const_nat pop.A pop.A.length

/-- C3: the costs computed by the encoder: `order_cost = 1`,
`action_cost = |orders| + 1` with `|orders| = |A|²`,
`top_cost = |orders|·order_cost + |actions|·action_cost + 1`; hence one
kept action costs strictly more than all kept orderings together, and
`top_cost` strictly exceeds the sum of all soft-clause costs. -/
theorem c3_cost_arithmetic (pop : POP) :
    orderCost = 1 ∧
    actionCost pop = (ordersProps pop).length + 1 ∧
    (ordersProps pop).length = pop.A.length * pop.A.length ∧
    topCost pop =
      (ordersProps pop).length * orderCost + (actionsProps pop).length * actionCost pop + 1 ∧
    orderCost * (ordersProps pop).length < actionCost pop ∧
    softCostSum pop < topCost pop := by
  refine ⟨rfl, rfl, ordersProps_length pop, rfl, ?_, ?_⟩
  · simp [actionCost, orderCost]
  · simp only [softCostSum, topCost, sum_map_const_nat]
    omega

/-- C6 counterexample: on a POP whose recorded links `x -> y -> z` are not
transitively closed, the state of the POP object after `encode_POP` differs
from its input state (line 23 calls `pop.transativly_close()`), refuting
the claim that the encoder does not itself close the POP and leaves the
input POP unchanged. -/
theorem c6_counterexample : popAfterEncode popNC ≠ popNC := by decide

/-- C6 amended: `encode_POP` itself transitively closes the input POP's
ordering relation as its first step (so callers need not have closed it);
this closure, replacing the recorded links with their transitive closure,
is the only mutation of the input POP — facts, actions, init and goal are
unchanged, and the POP returned alongside the outputs is exactly the
closed input. -/
theorem c6_amended (pop : POP) (compile : List Form → CNFResult) (args : Args) :
    (popAfterEncode pop).F = pop.F ∧ (popAfterEncode pop).A = pop.A ∧
    (popAfterEncode pop).init = pop.init ∧ (popAfterEncode pop).goal = pop.goal ∧
    (popAfterEncode pop).links = transitivelyClose pop.links ∧
    (encodePOP compile pop args).map Prod.fst =
      (encodePOP compile pop args).map (fun _ => popAfterEncode pop) := by
  refine ⟨rfl, rfl, rfl, rfl, rfl, ?_⟩
  cases hic : indexCheck (popAfterEncode pop)
  · simp [encodePOP, hic]
    rfl
  · cases hpc : presCheck (popAfterEncode pop)
    · simp [encodePOP, hic, hpc]
      rfl
    · cases hw : writeStage (popAfterEncode pop)
        (compile (hardClauses (popAfterEncode pop) (addersOf (popAfterEncode pop))
          (deletersOf (popAfterEncode pop)) args)) <;>
        simp [encodePOP, hic, hpc, hw] <;> rfl

/-- C7: encoding is a deterministic function of the input POP, the options
and the (deterministic) external compilation engine: two invocations on
identical inputs produce identical WCNF and map outputs. -/
theorem c7_deterministic (compile : List Form → CNFResult) (pop1 pop2 : POP)
    (args1 args2 : Args) (hp : pop1 = pop2) (ha : args1 = args2) :
    encodePOP compile pop1 args1 = encodePOP compile pop2 args2 := by
  subst hp; subst ha; rfl

theorem c7_deterministic_witness :
    encodePOP compileNop popS args0 = encodePOP compileNop popS args0 :=
  c7_deterministic compileNop popS popS args0 args0 rfl rfl

/-- C10: if some action adds or deletes a fact outside `F`, `encode_POP`
raises `KeyError` while building the adders/deleters indices, whatever the
external engine would have returned (so before any proposition or clause
is created); and on success the indices contain exactly the actions adding
(resp. deleting) each fact. -/
theorem c10_index_key_error (pop : POP) (compile : List Form → CNFResult) (args : Args)
    (h : ∃ a ∈ pop.A, ∃ f, (f ∈ a.adds ∨ f ∈ a.dels) ∧ f ∉ pop.F) :
    encodePOP compile pop args = .error .indexKeyError ∧
    indexCheck pop = false ∧
    (∀ f x, x ∈ addersOf pop f ↔ x ∈ pop.A ∧ f ∈ x.adds) ∧
    (∀ f x, x ∈ deletersOf pop f ↔ x ∈ pop.A ∧ f ∈ x.dels) := by
  have hic : indexCheck pop = false := by
    obtain ⟨a, ha, f, hf, hnf⟩ := h
    rcases Bool.eq_false_or_eq_true (indexCheck pop) with h0 | h0
    · exfalso
      have h1 := (List.all_eq_true.1 h0) a ha
      rw [Bool.and_eq_true] at h1
      rcases hf with hf | hf
      · have h2 := (List.all_eq_true.1 h1.1) f hf
        simp at h2
        exact hnf h2
      · have h2 := (List.all_eq_true.1 h1.2) f hf
        simp at h2
        exact hnf h2
    · exact h0
  have hic' : indexCheck (popAfterEncode pop) = false := hic
  refine ⟨?_, hic, ?_, ?_⟩
  · unfold encodePOP
    simp [hic']
  · intro f x
    simp [addersOf, List.mem_filter]
  · intro f x
    simp [deletersOf, List.mem_filter]

/-- C8 counterexample: the map file's values use `str(v)` — the
propositions' `__str__` forms — not the `Action(...)`/`Order(...)`/
`Support(...)` forms the claim states: for a compiled CNF whose single
variable is the proposition `Action(i)`, the map entry's value is
`"i in plan"`, not `"Action(i)"`. -/
theorem c8_counterexample :
    mapEntries r8 = [("1", "i in plan")] ∧
    ("i in plan" : String) ≠ "Action(" ++ actStr aI ++ ")" := by
  exact ⟨by decide, by decide⟩

/-- C8 amended: the map file is a JSON object with indentation level 4
mapping each string variable index (1-based, in `cnf.vars()` order) to
`str()` of that variable's label: `"{a} in plan"` for `Action(a)`,
`"{a1} -> {a2}"` for `Order(a1,a2)`, `"{a1} supports {p} for {a2}"` for
`Support(a1,p,a2)` (the `__str__` forms, not the `repr` forms). -/
theorem c8_amended (pop : POP) (r : CNFResult) (w : List String) (m : String)
    (h : writeStage pop r = .ok (w, m)) :
    m = jsonIndent4 (mapEntries r) ∧
    (∀ i : Nat, (mapEntries r)[i]? = (r.vars[i]?).map (fun v => (toString (i + 1), vstr v))) ∧
    (∀ a, vstr (.prp (.action a)) = actStr a ++ " in plan") ∧
    (∀ a1 a2, vstr (.prp (.order a1 a2)) = actStr a1 ++ " -> " ++ actStr a2) ∧
    (∀ a1 p a2, vstr (.prp (.support a1 p a2)) =
      actStr a1 ++ " supports " ++ p ++ " for " ++ actStr a2) := by
  refine ⟨?_, ?_, fun a => rfl, fun a1 a2 => rfl, fun a1 p a2 => rfl⟩
  · unfold writeStage at h
    cases h1 : softLines (actionCost pop) (fun p => varIdx r (.prp p)) (actionsProps pop) with
    | error e => rw [h1] at h; exact absurd h (by simp)
    | ok sa =>
      rw [h1] at h
      cases h2 : softLines orderCost (fun p => varIdx r (.prp p)) (ordersProps pop) with
      | error e => rw [h2] at h; exact absurd h (by simp)
      | ok so =>
        rw [h2] at h
        have h5 := congrArg
          (fun x => match x with | Except.ok y => y.2 | Except.error _ => "") h
        exact h5.symm
  · intro i
    simp only [mapEntries, List.getElem?_map, List.getElem?_enum]
    cases r.vars[i]? <;> rfl

theorem c8_amended_witness :
    wm0.2 = jsonIndent4 (mapEntries r0) ∧
    (∀ i : Nat, (mapEntries r0)[i]? =
      (r0.vars[i]?).map (fun v => (toString (i + 1), vstr v))) ∧
    (∀ a, vstr (.prp (.action a)) = actStr a ++ " in plan") ∧
    (∀ a1 a2, vstr (.prp (.order a1 a2)) = actStr a1 ++ " -> " ++ actStr a2) ∧
    (∀ a1 p a2, vstr (.prp (.support a1 p a2)) =
      actStr a1 ++ " supports " ++ p ++ " for " ++ actStr a2) :=
  c8_amended popS r0 wm0.1 wm0.2 rfl

theorem filter_ne_length {A : List Act} (h : A.Nodup) {a : Act} (ha : a ∈ A) :
    (A.filter (fun x => decide (x ≠ a))).length = A.length - 1 := by
  induction A with
  | nil => cases ha
  | cons b bs ih =>
    rw [List.nodup_cons] at h
    by_cases hba : b = a
    · subst hba
      have hfilter : bs.filter (fun x => decide (x ≠ b)) = bs :=
        List.filter_eq_self.2 (fun x hx => by
          simp only [decide_eq_true_eq]
          intro hxb
          exact h.1 (hxb ▸ hx))
      rw [List.filter_cons_of_neg (by simp), hfilter]
      simp
    · have ha' : a ∈ bs := by
        rcases List.mem_cons.1 ha with h1 | h1
        · exact absurd h1.symm hba
        · exact h1
      have hlen := ih h.2 ha'
      have hpos : 0 < bs.length := List.length_pos_of_mem ha'
      rw [List.filter_cons_of_pos (by simp [hba]), List.length_cons, hlen, List.length_cons]
      omega

theorem serialClauses_length {A : List Act} (h : A.Nodup) :
    (serialClauses A).length = A.length * (A.length - 1) := by
  rw [serialClauses, List.length_flatMap]
  have heach : ∀ a1 ∈ A,
      (List.length ∘ fun a1 => (A.filter (fun a2 => decide (a2 ≠ a1))).map (serialClause a1)) a1 =
      A.length - 1 := by
    intro a1 ha1
    simp only [Function.comp_def, List.length_map]
    exact filter_ne_length h ha1
  rw [List.map_congr_left heach]
  exact sum_map_const_nat A _

/-- C5: relative to a run without options, `--allact` appends exactly `|A|`
hard unit clauses `Action(a)`; `--serial` appends exactly `|A|·(|A|-1)`
hard clauses, one `(Action(a1) ∧ Action(a2)) → (Order(a1,a2) ∨ Order(a2,a1))`
per ordered pair of distinct actions; `--deorder` appends exactly one hard
unit clause `¬Order(aj,ai)` per link `(ai,aj)` of `get_links()`. -/
theorem c5_option_effects (pop : POP) (ad dl : String → List Act) :
    (hardClauses pop ad dl ⟨true, false, false⟩ =
      hardClauses pop ad dl ⟨false, false, false⟩ ++
        pop.A.map (fun a => Form.var (.action a))) ∧
    (allactClauses pop.A).length = pop.A.length ∧
    (hardClauses pop ad dl ⟨false, true, false⟩ =
      hardClauses pop ad dl ⟨false, false, false⟩ ++ serialClauses pop.A) ∧
    (pop.A.Nodup → (serialClauses pop.A).length = pop.A.length * (pop.A.length - 1)) ∧
    (∀ a1 ∈ pop.A, ∀ a2 ∈ pop.A, a1 ≠ a2 → serialClause a1 a2 ∈ serialClauses pop.A) ∧
    (hardClauses pop ad dl ⟨false, false, true⟩ =
      hardClauses pop ad dl ⟨false, false, false⟩ ++
        pop.links.map (fun q => Form.neg (Form.var (.order q.2 q.1)))) ∧
    (deorderClauses pop.links).length = pop.links.length := by
  refine ⟨?_, by simp [allactClauses], ?_, fun h => serialClauses_length h, ?_, ?_,
    by simp [deorderClauses]⟩
  · simp [hardClauses, allactClauses, List.append_assoc]
  · simp [hardClauses, List.append_assoc]
  · intro a1 h1 a2 h2 hne
    rw [serialClauses, List.mem_flatMap]
    exact ⟨a1, h1, List.mem_map.2 ⟨a2, List.mem_filter.2 ⟨h2, by simpa using Ne.symm hne⟩, rfl⟩⟩
  · simp [hardClauses, deorderClauses, List.append_assoc]

theorem c5_option_effects_witness :
    (serialClauses popS.A).length = popS.A.length * (popS.A.length - 1) ∧
    serialClause aI aG ∈ serialClauses popS.A :=
  ⟨(c5_option_effects popS (addersOf popS) (deletersOf popS)).2.2.2.1 (by decide),
   (c5_option_effects popS (addersOf popS) (deletersOf popS)).2.2.2.2.1
     aI (by decide) aG (by decide) (by decide)⟩

theorem softLines_missing (cost : Nat) (look : Prp → Option Nat) :
    ∀ l : List Prp, (∃ p ∈ l, look p = none) →
      softLines cost look l = .error .varKeyError := by
  intro l
  induction l with
  | nil => rintro ⟨p, hp, _⟩; cases hp
  | cons q qs ih =>
    rintro ⟨p, hp, hnone⟩
    rcases List.mem_cons.1 hp with h1 | h1
    · subst h1
      simp [softLines, hnone]
    · cases hq : look q with
      | none => simp [softLines, hq]
      | some v =>
        have htail := ih ⟨p, h1, hnone⟩
        simp [softLines, hq, htail]

theorem softLines_error_val (cost : Nat) (look : Prp → Option Nat) :
    ∀ (l : List Prp) (e : EncErr), softLines cost look l = .error e →
      e = .varKeyError := by
  intro l
  induction l with
  | nil => intro e h; simp [softLines] at h
  | cons q qs ih =>
    intro e h
    cases hq : look q with
    | none =>
      simp only [softLines, hq] at h
      exact (Except.error.inj h).symm
    | some v =>
      simp only [softLines, hq] at h
      cases htail : softLines cost look qs with
      | error e2 =>
        rw [htail] at h
        exact (Except.error.inj h) ▸ ih e2 htail
      | ok ls =>
        rw [htail] at h
        cases h

theorem softLines_ok_lookup (cost : Nat) (look : Prp → Option Nat) :
    ∀ (l : List Prp) (out : List String), softLines cost look l = .ok out →
      ∀ p ∈ l, ∃ v, look p = some v := by
  intro l
  induction l with
  | nil => intro out _ p hp; cases hp
  | cons q qs ih =>
    intro out h p hp
    cases hq : look q with
    | none => simp [softLines, hq] at h
    | some v =>
      rcases List.mem_cons.1 hp with h1 | h1
      · exact h1 ▸ ⟨v, hq⟩
      · simp only [softLines, hq] at h
        cases htail : softLines cost look qs with
        | error e => rw [htail] at h; cases h
        | ok ls => exact ih ls htail p h1

theorem softLines_ok_forall₂ (cost : Nat) (look : Prp → Option Nat) :
    ∀ (l : List Prp) (out : List String), softLines cost look l = .ok out →
      List.Forall₂ (fun p s => ∃ v, look p = some v ∧ s = softLine cost v) l out := by
  intro l
  induction l with
  | nil =>
    intro out h
    simp only [softLines] at h
    rw [← Except.ok.inj h]
    exact List.Forall₂.nil
  | cons q qs ih =>
    intro out h
    cases hq : look q with
    | none => simp [softLines, hq] at h
    | some v =>
      simp only [softLines, hq] at h
      cases htail : softLines cost look qs with
      | error e => rw [htail] at h; cases h
      | ok ls =>
        rw [htail] at h
        rw [← Except.ok.inj h]
        exact List.Forall₂.cons ⟨v, hq, rfl⟩ (ih ls htail)

/-- C9: if any Action or Order proposition is absent from the compiled
CNF's variable set, the `var_labels_inverse` lookup fails (`KeyError`)
before either output file is produced — `encode_POP` returns the error and
no output; conversely a successful output requires every Action and Order
proposition to appear as a variable of the compiled CNF. -/
theorem c9_missing_variable (pop : POP) (r : CNFResult) :
    ((∃ p, (p ∈ actionsProps pop ∨ p ∈ ordersProps pop) ∧ varIdx r (.prp p) = none) →
      writeStage pop r = .error .varKeyError) ∧
    (∀ w m, writeStage pop r = .ok (w, m) →
      ∀ p, (p ∈ actionsProps pop ∨ p ∈ ordersProps pop) → ∃ v, varIdx r (.prp p) = some v) ∧
    (∀ (compile : List Form → CNFResult) (args : Args) (pop0 : POP),
      popAfterEncode pop0 = pop → indexCheck pop = true → presCheck pop = true →
      compile (hardClauses pop (addersOf pop) (deletersOf pop) args) = r →
      (∃ p, (p ∈ actionsProps pop ∨ p ∈ ordersProps pop) ∧ varIdx r (.prp p) = none) →
      encodePOP compile pop0 args = .error .varKeyError) := by
  have hpart1 :
      (∃ p, (p ∈ actionsProps pop ∨ p ∈ ordersProps pop) ∧ varIdx r (.prp p) = none) →
      writeStage pop r = .error .varKeyError := by
    rintro ⟨p, hp | hp, hnone⟩
    · have h1 := softLines_missing (actionCost pop) (fun q => varIdx r (.prp q))
        (actionsProps pop) ⟨p, hp, hnone⟩
      simp [writeStage, h1]
    · cases h1 : softLines (actionCost pop) (fun q => varIdx r (.prp q)) (actionsProps pop) with
      | error e =>
        have he := softLines_error_val (actionCost pop) (fun q => varIdx r (.prp q))
          (actionsProps pop) e h1
        simp [writeStage, h1, he]
      | ok sa =>
        have h2 := softLines_missing orderCost (fun q => varIdx r (.prp q))
          (ordersProps pop) ⟨p, hp, hnone⟩
        simp [writeStage, h1, h2]
  refine ⟨hpart1, ?_, ?_⟩
  · intro w m h p hp
    cases h1 : softLines (actionCost pop) (fun q => varIdx r (.prp q)) (actionsProps pop) with
    | error e => simp [writeStage, h1] at h
    | ok sa =>
      cases h2 : softLines orderCost (fun q => varIdx r (.prp q)) (ordersProps pop) with
      | error e => simp [writeStage, h1, h2] at h
      | ok so =>
        rcases hp with hp | hp
        · exact softLines_ok_lookup (actionCost pop) _ (actionsProps pop) sa h1 p hp
        · exact softLines_ok_lookup orderCost _ (ordersProps pop) so h2 p hp
  · intro compile args pop0 hpe hic hpc hcomp hex
    have hw := hpart1 hex
    simp only [encodePOP, hpe, hic, hpc, hcomp, hw, if_true]

theorem c9_missing_variable_witness :
    writeStage popS rEmpty = .error .varKeyError ∧
    encodePOP compileNop popS args0 = .error .varKeyError :=
  ⟨(c9_missing_variable popS rEmpty).1 ⟨Prp.action aI, Or.inl (by decide), by decide⟩,
   (c9_missing_variable popS rEmpty).2.2 compileNop args0 popS (by decide) (by decide)
     (by decide) rfl ⟨Prp.action aI, Or.inl (by decide), by decide⟩⟩

/-- C4: the emitted WCNF: header `p wcnf nv nc top_cost` with `nc` equal to
the compiled hard-clause count plus |actions| plus |orders|; every compiled
hard clause line prefixed with `top_cost`; after the hard clauses exactly
one soft line `{action_cost} -{var} 0` per Action proposition followed by
exactly one `{order_cost} -{var} 0` per Order proposition, each using the
variable assigned to that exact proposition; nothing else (in particular no
Support proposition) yields a soft clause. -/
theorem c4_wcnf_serialization (pop : POP) (r : CNFResult) (w : List String) (m : String)
    (h : writeStage pop r = .ok (w, m)) :
    ∃ sa so,
      List.Forall₂ (fun p s => ∃ v, varIdx r (.prp p) = some v ∧ s = softLine (actionCost pop) v)
        (actionsProps pop) sa ∧
      List.Forall₂ (fun p s => ∃ v, varIdx r (.prp p) = some v ∧ s = softLine orderCost v)
        (ordersProps pop) so ∧
      w = ("p wcnf " ++ toString r.vars.length ++ " " ++
            toString (r.clauses.length + pop.A.length + pop.A.length * pop.A.length) ++
            " " ++ toString (topCost pop)) ::
          (r.clauses.map (hardLine (topCost pop)) ++ sa ++ so) ∧
      (∀ c, hardLine (topCost pop) c = toString (topCost pop) ++ " " ++ clauseLine c) := by
  cases h1 : softLines (actionCost pop) (fun q => varIdx r (.prp q)) (actionsProps pop) with
  | error e => simp [writeStage, h1] at h
  | ok sa =>
    cases h2 : softLines orderCost (fun q => varIdx r (.prp q)) (ordersProps pop) with
    | error e => simp [writeStage, h1, h2] at h
    | ok so =>
      simp only [writeStage, h1, h2] at h
      refine ⟨sa, so, softLines_ok_forall₂ _ _ _ sa h1, softLines_ok_forall₂ _ _ _ so h2,
        ?_, fun c => rfl⟩
      have h3 := Except.ok.inj h
      rw [Prod.ext_iff] at h3
      obtain ⟨h4, h5⟩ := h3
      simp only [] at h4
      rw [← h4]
      show wcnfHeader pop r :: (r.clauses.map (hardLine (topCost pop)) ++ sa ++ so) = _
      unfold wcnfHeader
      rw [actionsProps_length, ordersProps_length]

theorem c4_wcnf_serialization_witness :
    ∃ sa so,
      List.Forall₂
        (fun p s => ∃ v, varIdx r0 (.prp p) = some v ∧ s = softLine (actionCost popS) v)
        (actionsProps popS) sa ∧
      List.Forall₂ (fun p s => ∃ v, varIdx r0 (.prp p) = some v ∧ s = softLine orderCost v)
        (ordersProps popS) so ∧
      wm0.1 = ("p wcnf " ++ toString r0.vars.length ++ " " ++
            toString (r0.clauses.length + popS.A.length + popS.A.length * popS.A.length) ++
            " " ++ toString (topCost popS)) ::
          (r0.clauses.map (hardLine (topCost popS)) ++ sa ++ so) ∧
      (∀ c, hardLine (topCost popS) c = toString (topCost popS) ++ " " ++ clauseLine c) :=
  c4_wcnf_serialization popS r0 wm0.1 wm0.2 rfl

theorem isSupportOrFor_foldl (a2 : Act) (p : String) :
    ∀ (xs : List Act) (acc : Form), isSupportOrFor a2 acc = true →
      isSupportOrFor a2
        ((xs.map (fun a1 => Form.var (.support a1 p a2))).foldl Form.disj acc) = true := by
  intro xs
  induction xs with
  | nil => intro acc h; exact h
  | cons y ys ih =>
    intro acc h
    simp only [List.map_cons, List.foldl_cons]
    exact ih _ (by simp [isSupportOrFor, h])

theorem isSupportOrFor_orList (a2 : Act) (p : String) (l : List Act) :
    isSupportOrFor a2 (orList (l.map (fun a1 => Form.var (.support a1 p a2)))) = true := by
  cases l with
  | nil => rfl
  | cons x xs =>
    simp only [List.map_cons, orList]
    exact isSupportOrFor_foldl a2 p xs _ (by simp [isSupportOrFor])

theorem isPrecClause_precClause (ad : String → List Act) (a2 : Act) (p : String) :
    isPrecClause (precClause ad a2 p) = true := by
  simp only [precClause, isPrecClause]
  exact isSupportOrFor_orList a2 p (extAdders ad p a2)

theorem filter_prec_eq (pop : POP) (ad dl : String → List Act) (args : Args) :
    (hardClauses pop ad dl args).filter isPrecClause = precClauses ad pop.A := by
  rw [hardClauses]
  repeat rw [List.filter_append]
  have h1 : (irreflexClauses pop.A).filter isPrecClause = [] :=
    List.filter_eq_nil_iff.2 (by
      intro c hc
      obtain ⟨a, _, rfl⟩ := List.mem_map.1 hc
      simp [isPrecClause])
  have h2 : (transClauses pop.A).filter isPrecClause = [] :=
    List.filter_eq_nil_iff.2 (by
      intro c hc
      rw [transClauses, List.mem_flatMap] at hc
      obtain ⟨x, _, hc⟩ := hc
      rw [List.mem_flatMap] at hc
      obtain ⟨y, _, hc⟩ := hc
      obtain ⟨z, _, rfl⟩ := List.mem_map.1 hc
      simp [isPrecClause])
  have h3 : (orderActionClauses pop.A).filter isPrecClause = [] :=
    List.filter_eq_nil_iff.2 (by
      intro c hc
      rw [orderActionClauses, List.mem_flatMap] at hc
      obtain ⟨x, _, hc⟩ := hc
      obtain ⟨y, _, rfl⟩ := List.mem_map.1 hc
      simp [isPrecClause])
  have h4 : (bracketClauses pop.A pop.init pop.goal).filter isPrecClause = [] :=
    List.filter_eq_nil_iff.2 (by
      intro c hc
      rw [bracketClauses, List.mem_flatMap] at hc
      obtain ⟨a, _, hc⟩ := hc
      rcases List.mem_append.1 hc with hc | hc
      · by_cases hai : a = pop.init
        · simp [hai] at hc
        · simp only [hai, if_false, List.mem_singleton] at hc
          subst hc
          simp [isPrecClause, isSupportOrFor]
      · by_cases hag : a = pop.goal
        · simp [hag] at hc
        · simp only [hag, if_false, List.mem_singleton] at hc
          subst hc
          simp [isPrecClause, isSupportOrFor])
  have h5 : (initGoalClauses pop.init pop.goal).filter isPrecClause = [] :=
    List.filter_eq_nil_iff.2 (by
      intro c hc
      rcases List.mem_cons.1 hc with hc | hc
      · subst hc; simp [isPrecClause]
      · rw [List.mem_singleton] at hc
        subst hc; simp [isPrecClause])
  have h6 : (precClauses ad pop.A).filter isPrecClause = precClauses ad pop.A :=
    List.filter_eq_self.2 (by
      intro c hc
      rw [precClauses, List.mem_flatMap] at hc
      obtain ⟨a2, _, hc⟩ := hc
      obtain ⟨p, _, rfl⟩ := List.mem_map.1 hc
      exact isPrecClause_precClause ad a2 p)
  have h7 : (supportClauses ad dl pop.A).filter isPrecClause = [] :=
    List.filter_eq_nil_iff.2 (by
      intro c hc
      rw [supportClauses, List.mem_flatMap] at hc
      obtain ⟨a2, _, hc⟩ := hc
      rw [List.mem_flatMap] at hc
      obtain ⟨p, _, hc⟩ := hc
      rw [threatGroup, List.mem_flatMap] at hc
      obtain ⟨a1, _, hc⟩ := hc
      rcases List.mem_cons.1 hc with hc | hc
      · subst hc; simp [supOrdClause, isPrecClause]
      · obtain ⟨d, _, rfl⟩ := List.mem_map.1 hc
        simp [threatClause, isPrecClause])
  have h8 : (if args.serial then serialClauses pop.A else []).filter isPrecClause = [] := by
    cases hs : args.serial
    · simp
    · simp only [if_true]
      exact List.filter_eq_nil_iff.2 (by
        intro c hc
        rw [serialClauses, List.mem_flatMap] at hc
        obtain ⟨x, _, hc⟩ := hc
        obtain ⟨y, _, rfl⟩ := List.mem_map.1 hc
        simp [serialClause, isPrecClause])
  have h9 : (if args.allact then allactClauses pop.A else []).filter isPrecClause = [] := by
    cases hs : args.allact
    · simp
    · simp only [if_true]
      exact List.filter_eq_nil_iff.2 (by
        intro c hc
        obtain ⟨a, _, rfl⟩ := List.mem_map.1 hc
        simp [isPrecClause])
  have h10 : (if args.deorder then deorderClauses pop.links else []).filter isPrecClause = [] := by
    cases hs : args.deorder
    · simp
    · simp only [if_true]
      exact List.filter_eq_nil_iff.2 (by
        intro c hc
        obtain ⟨q, _, rfl⟩ := List.mem_map.1 hc
        simp [isPrecClause])
  rw [h1, h2, h3, h4, h5, h6, h7, h8, h9, h10]
  simp

/-- C1: the generator emits, per `a2 ∈ A` and `p ∈ a2.pres`, exactly one
hard clause `Action(a2) → OR of Support(a1,p,a2)` over external adders
`a1 ≠ a2` of `p` (and no other clause of that shape exists); when `p` has
no external adder the disjunction is empty and every satisfying assignment
of the hard clauses sets `Action(a2)` false. -/
theorem c1_precondition_support (pop : POP) (ad dl : String → List Act) (args : Args) :
    ((hardClauses pop ad dl args).filter isPrecClause = precClauses ad pop.A) ∧
    ((precClauses ad pop.A).length = (pop.A.map (fun a => a.pres.length)).sum) ∧
    (∀ a2 ∈ pop.A, ∀ p ∈ a2.pres, precClause ad a2 p ∈ hardClauses pop ad dl args) ∧
    (∀ v, satisfiesAll v (hardClauses pop ad dl args) →
      ∀ a2 ∈ pop.A, ∀ p ∈ a2.pres, extAdders ad p a2 = [] →
        v (Prp.action a2) = false) := by
  have hmem : ∀ a2 ∈ pop.A, ∀ p ∈ a2.pres,
      precClause ad a2 p ∈ hardClauses pop ad dl args := by
    intro a2 ha2 p hp
    have hin : precClause ad a2 p ∈ precClauses ad pop.A := by
      rw [precClauses, List.mem_flatMap]
      exact ⟨a2, ha2, List.mem_map.2 ⟨p, hp, rfl⟩⟩
    rw [hardClauses]
    simp only [List.mem_append]
    tauto
  refine ⟨filter_prec_eq pop ad dl args, ?_, hmem, ?_⟩
  · simp [precClauses, List.length_flatMap, Function.comp_def]
  · intro v hsat a2 ha2 p hp hempty
    have he := hsat _ (hmem a2 ha2 p hp)
    rw [precClause, hempty] at he
    simp only [List.map_nil, orList, Form.eval] at he
    simpa using he

theorem c1_precondition_support_witness :
    precClause (addersOf popC1) aC "q" ∈
      hardClauses popC1 (addersOf popC1) (deletersOf popC1) args0 ∧
    v0 (Prp.action aC) = false := by
  have h := c1_precondition_support popC1 (addersOf popC1) (deletersOf popC1) args0
  exact ⟨h.2.2.1 aC (by decide) "q" (by decide),
    h.2.2.2 v0 (by unfold satisfiesAll; decide) aC (by decide) "q" (by decide) (by decide)⟩

/-- C2: for every `a2 ∈ A`, `p ∈ a2.pres`, external adder `a1 ≠ a2` of `p`
and deleter `d` of `p` with `d ∉ {a1, a2}`, the generator emits the hard
clause `Support(a1,p,a2) → (¬Action(d) ∨ Order(d,a1) ∨ Order(a2,d))`; so
in every satisfying assignment with `Support(a1,p,a2)` true, each such
deleter is absent or ordered before `a1` or after `a2`. -/
theorem c2_threat_resolution (pop : POP) (ad dl : String → List Act) (args : Args)
    (a2 : Act) (p : String) (a1 d : Act)
    (ha2 : a2 ∈ pop.A) (hp : p ∈ a2.pres) (ha1 : a1 ∈ ad p) (hne : a1 ≠ a2)
    (hd : d ∈ dl p) (hd1 : d ≠ a1) (hd2 : d ≠ a2) :
    threatClause a1 p a2 d ∈ hardClauses pop ad dl args ∧
    (∀ v, satisfiesAll v (hardClauses pop ad dl args) →
      v (.support a1 p a2) = true →
      v (.action d) = false ∨ v (.order d a1) = true ∨ v (.order a2 d) = true) := by
  have hmem : threatClause a1 p a2 d ∈ supportClauses ad dl pop.A := by
    rw [supportClauses, List.mem_flatMap]
    refine ⟨a2, ha2, ?_⟩
    rw [List.mem_flatMap]
    refine ⟨p, hp, ?_⟩
    rw [threatGroup, List.mem_flatMap]
    refine ⟨a1, List.mem_filter.2 ⟨ha1, by simpa using hne⟩, ?_⟩
    exact List.mem_cons.2 (Or.inr
      (List.mem_map.2 ⟨d, List.mem_filter.2 ⟨hd, by simp [hd1, hd2]⟩, rfl⟩))
  have hmem2 : threatClause a1 p a2 d ∈ hardClauses pop ad dl args := by
    rw [hardClauses]
    simp only [List.mem_append]
    tauto
  refine ⟨hmem2, ?_⟩
  intro v hsat hsupp
  have he := hsat _ hmem2
  simp only [threatClause, Form.eval, hsupp, Bool.not_true, Bool.false_or] at he
  rw [Bool.or_eq_true, Bool.or_eq_true, Bool.not_eq_true'] at he
  tauto

theorem c2_threat_resolution_witness :
    threatClause aI "p" aB aD ∈ hardClauses popT (addersOf popT) (deletersOf popT) args0 ∧
    (v1 (.action aD) = false ∨ v1 (.order aD aI) = true ∨ v1 (.order aB aD) = true) := by
  have h := c2_threat_resolution popT (addersOf popT) (deletersOf popT) args0 aB "p" aI aD
    (by decide) (by decide) (by decide) (by decide) (by decide) (by decide) (by decide)
  exact ⟨h.1, h.2 v1 (by unfold satisfiesAll; decide) (by decide)⟩

theorem c10_index_key_error_witness :
    encodePOP compileNop popBad args0 = .error .indexKeyError ∧
    indexCheck popBad = false ∧
    (∀ f x, x ∈ addersOf popBad f ↔ x ∈ popBad.A ∧ f ∈ x.adds) ∧
    (∀ f x, x ∈ deletersOf popBad f ↔ x ∈ popBad.A ∧ f ∈ x.dels) :=
  c10_index_key_error popBad compileNop args0
    ⟨aBad, by decide, "w", Or.inl (by decide), by decide⟩

end Popgen
